import Mathlib

/-!
Verification development for the Format-Interface-Generator repository
(Go module FormatModules): a shallow embedding of the generated simplebmp
codecs, the expression helper CalculatePaddedSize, the YAML validator and
key normalizer, the per-record generation loop, and the configuration
loader, together with theorems settling the specified properties.
-/

namespace FormatModules

/-! Byte streams.  A byte is a natural number below 256; Go readers and
writers over in-memory buffers are modelled as functions on byte lists. -/

/-- Bytes are naturals; the generated code only ever produces values below 256. -/
abbrev Byte := Nat

/-- Little-endian encoding of a uint32 value into four bytes, as produced by
Go binary.Write with binary.LittleEndian for a uint32 field. -/
def u32le (n : Nat) : List Byte :=
  [n % 256, n / 256 % 256, n / 65536 % 256, n / 16777216 % 256]

/-- Little-endian decoding of four bytes into a uint32 value, as performed by
Go binary.Read with binary.LittleEndian for a uint32 field. -/
def leVal (bs : List Byte) : Nat :=
  match bs with
  | [a, b, c, d] => a + 256 * b + 65536 * c + 16777216 * d
  | _ => 0

/-- Go r.Read into a fresh zero-initialised buffer of size n over a
bytes.Reader: an exhausted stream fails with EOF before anything is copied;
otherwise up to n bytes are copied and any untouched tail of the buffer keeps
its zero initialisation. -/
def goRead (n : Nat) (input : List Byte) : Except String (List Byte × List Byte) :=
  if input.isEmpty then .error "EOF"
  else .ok (input.take n ++ List.replicate (n - input.length) 0, input.drop n)

/-- Go binary.Read of a fixed n-byte value (io.ReadFull underneath): it fails
unless n bytes are available and otherwise consumes exactly n bytes. -/
def readFull (n : Nat) (input : List Byte) : Except String (List Byte × List Byte) :=
  if input.length < n then .error "unexpected EOF"
  else .ok (input.take n, input.drop n)

/-! Generated simplebmp codecs, transcribed from the emitted Go sources.
The Signature string is modelled as its byte list; uint32 fields are naturals
that the round-trip theorems constrain below 2 to the 32. -/

/-- Header struct of the generated simplebmp package. -/
structure Header where
  Signature : List Byte
  FileSize : Nat
  Reserved : Nat
  DataOffset : Nat
deriving DecidableEq

/-- Generated Header.Read: two bytes are read into Signature with r.Read on a
fresh buffer, then FileSize, Reserved and DataOffset are read as little-endian
uint32 values with binary.Read, in declared field order. -/
def Header.Read (input : List Byte) : Except String (Header × List Byte) :=
  match goRead 2 input with
  | .error e => .error e
  | .ok (b, rest0) =>
    match readFull 4 rest0 with
    | .error e => .error e
    | .ok (fs, rest1) =>
      match readFull 4 rest1 with
      | .error e => .error e
      | .ok (rv, rest2) =>
        match readFull 4 rest2 with
        | .error e => .error e
        | .ok (dof, rest3) =>
          .ok ({ Signature := b, FileSize := leVal fs, Reserved := leVal rv,
                 DataOffset := leVal dof }, rest3)

/-- Generated Header.Write: the Signature bytes are written verbatim with
w.Write, with no check against the declared length of the field, then the
three uint32 fields are written little-endian; an in-memory sink never
errors, so Write is total. -/
def Header.Write (s : Header) : List Byte :=
  s.Signature ++ u32le s.FileSize ++ u32le s.Reserved ++ u32le s.DataOffset

/-- ImageData struct of the generated simplebmp package. -/
structure ImageData where
  Width : Nat
  Height : Nat
  PixelData : List Byte
deriving DecidableEq

/-- Generated ImageData.Read: Width and Height are read as little-endian
uint32 values; the generated block for the expression-length PixelData field
is empty, so PixelData is left at its zero value. -/
def ImageData.Read (input : List Byte) : Except String (ImageData × List Byte) :=
  match readFull 4 input with
  | .error e => .error e
  | .ok (w, rest0) =>
    match readFull 4 rest0 with
    | .error e => .error e
    | .ok (h, rest1) =>
      .ok ({ Width := leVal w, Height := leVal h, PixelData := [] }, rest1)

/-- Generated ImageData.Write: Width and Height are written little-endian;
the generated block for the expression-length PixelData field is empty, so
PixelData is never written. -/
def ImageData.Write (s : ImageData) : List Byte :=
  u32le s.Width ++ u32le s.Height

/-! Descriptor model (application_structs) and the value-validation stage of
ValidateAndReformYAML (validator.go).  The structs map is modelled as an
association list carrying the iteration order. -/

/-- Field of a record, as in application_structs.Field with its yaml keys
name, type, description, length, condition and tags. -/
structure Field where
  name : String
  type : String
  description : String
  length : String
  condition : String
  tags : String
deriving DecidableEq

/-- Record definition: an ordered list of fields. -/
structure Struct where
  fields : List Field
deriving DecidableEq

/-- Top-level parsed format. -/
structure FileFormat where
  name : String
  description : String
  structs : List (String × Struct)
deriving DecidableEq

/-- ASCII whitespace, as relevant to the trimming done by the validator
(Go strings.TrimSpace; the keys and lengths in scope are ASCII). -/
def goIsSpace (c : Char) : Bool :=
  c == ' ' || c == '\t' || c == '\n' || c == '\r'

/-- Go strings.TrimSpace: leading and trailing whitespace removed. -/
def goTrim (s : String) : String :=
  String.mk (((s.toList.dropWhile goIsSpace).reverse.dropWhile goIsSpace).reverse)

/-- Lowercasing of one character (Go strings.ToLower on ASCII input). -/
def goToLowerChar (c : Char) : Char :=
  if 'A' ≤ c ∧ c ≤ 'Z' then Char.ofNat (c.toNat + 32) else c

/-- Go strings.ToLower on ASCII input. -/
def goToLower (s : String) : String :=
  String.mk (s.toList.map goToLowerChar)

/-- Digit part of Go strconv.Atoi: one or more ASCII digits parse to their
value, anything else is an error.  Overflow of the 64-bit range is not
modelled; every length in scope is a handful of characters. -/
def atoiDigits (ds : List Char) : Option Nat :=
  if ds = [] then none
  else if ds.all Char.isDigit then
    some (ds.foldl (fun a d => a * 10 + (d.toNat - 48)) 0)
  else none

/-- Go strconv.Atoi on the short strings appearing as lengths: an optional
sign followed by the digit part. -/
def atoiOpt (s : String) : Option Int :=
  match s.toList with
  | [] => none
  | c :: cs =>
    if c = '-' then (atoiDigits cs).map (fun v => -(v : Int))
    else if c = '+' then (atoiDigits cs).map (fun v => (v : Int))
    else (atoiDigits (c :: cs)).map (fun v => (v : Int))

/-- IsValidLengthExpression from the generator package: a length that trims
to the empty string or to the legacy ellipsis placeholder is invalid, any
other non-integer length passes the static check. -/
def IsValidLengthExpression (expr : String) : Bool :=
  if goTrim expr = "" ∨ goTrim expr = "..." then false else true

/-- Body of the validation and reformation loop of ValidateAndReformYAML for
one field: it returns the possibly reformed field, the number of hard
validation errors it contributes, and the number of reformations applied.
An empty (trimmed) type and, on string or byte-slice fields, an empty length
each count one error and skip the remaining checks for the field; a length
trimming to the ellipsis placeholder on a string or byte-slice field is
replaced by NEEDS_MANUAL_LENGTH and counted as one reformation; a fixed
integer length at most zero and a length that fails the static expression
check each count one error; a present but whitespace-only condition counts
one error.  Everything else, including a statically unparseable expression
and a stale length on a fixed-width or custom type, is a warning only and
contributes nothing. -/
def validateReformField (f : Field) : Field × Nat × Nat :=
  if goTrim f.type = "" then (f, 1, 0)
  else if (f.type = "string" ∨ f.type = "[]byte") ∧ f.length = "" then (f, 1, 0)
  else
    let reformed : Bool :=
      if (f.type = "string" ∨ f.type = "[]byte") ∧ goTrim f.length = "..." then true else false
    let f2 := if reformed then { f with length := "NEEDS_MANUAL_LENGTH" } else f
    let reforms := if reformed then 1 else 0
    let lengthErrors :=
      if f.type = "string" ∨ f.type = "[]byte" then
        match atoiOpt f2.length with
        | some n => if n ≤ 0 then 1 else 0
        | none => if IsValidLengthExpression f2.length then 0 else 1
      else 0
    let conditionErrors :=
      if f2.condition ≠ "" ∧ goTrim f2.condition = "" then 1 else 0
    (f2, lengthErrors + conditionErrors, reforms)

/-- Validation walk over an ordered field list: every field is processed and
errors and reformations are accumulated over the whole list. -/
def validateReformFields : List Field → List Field × Nat × Nat
  | [] => ([], 0, 0)
  | f :: rest =>
    let r := validateReformField f
    let rr := validateReformFields rest
    (r.1 :: rr.1, r.2.1 + rr.2.1, r.2.2 + rr.2.2)

/-- Validation walk over all structs of a format, in iteration order. -/
def validateReformFormat : List (String × Struct) → List (String × Struct) × Nat × Nat
  | [] => ([], 0, 0)
  | (nm, st) :: rest =>
    let r := validateReformFields st.fields
    let rr := validateReformFormat rest
    ((nm, { fields := r.1 }) :: rr.1, r.2.1 + rr.2.1, r.2.2 + rr.2.2)

/-- Value-validation stage of ValidateAndReformYAML, after the YAML file has
been read, key-normalized and decoded into the FileFormat model: the walk
covers every field of every struct, accumulating hard errors and
reformations; with at least one hard error the batch is reported and nothing
is written, otherwise the reformed descriptor that gets marshalled back to
disk is returned together with the reformation count. -/
def ValidateAndReformYAML (ff : FileFormat) : Except String (FileFormat × Nat) :=
  let r := validateReformFormat ff.structs
  if r.2.1 > 0 then
    .error ("found " ++ toString r.2.1 ++ " critical validation error(s)")
  else
    .ok ({ ff with structs := r.1 }, r.2.2)

/-- Hard validation error kinds as the specification states them: an empty
type, a string or byte-slice field with no usable length (nothing left after
trimming), a fixed integer length at most zero, or a present but
whitespace-only condition. -/
def specHardError (f : Field) : Prop :=
  goTrim f.type = "" ∨
  ((f.type = "string" ∨ f.type = "[]byte") ∧ goTrim f.length = "") ∨
  ((f.type = "string" ∨ f.type = "[]byte") ∧ ∃ n : Int, atoiOpt f.length = some n ∧ n ≤ 0) ∨
  (f.condition ≠ "" ∧ goTrim f.condition = "")

/-! Expression helper registry (utils/get_expressions.go). -/

/-- CalculatePaddedSize as registered for YAML length expressions, on
non-negative integer arguments: govaluate passes float64 values, on which
integral inputs are exact and the Go int truncation of bitsPerPixel divided
by 8 coincides with natural division. -/
def CalculatePaddedSize (width height bitsPerPixel : Nat) : Except String Nat :=
  if bitsPerPixel = 0 then .error "bitsPerPixel cannot be zero"
  else
    let bytesPerPixel := bitsPerPixel / 8
    if bytesPerPixel = 0 then .error "unsupported bitsPerPixel for simple calculation"
    else
      let bytesPerRow := width * bytesPerPixel
      let paddingPerRow := (4 - bytesPerRow % 4) % 4
      let paddedRowSize := bytesPerRow + paddingPerRow
      .ok (height * paddedRowSize)

/-! Emission loop of generator.GenerateCode and the per-format loop of
runGeneration (main.go).  Template execution and import bookkeeping are
abstracted into a synthesis oracle; what matters here is the control flow:
which records are visited, in which order, and what happens on a failure. -/

/-- Per-record loop of GenerateCode: structs are visited in map iteration
order, which the association list carries; each record is synthesized and
its source unit written immediately, and a template execution error makes
GenerateCode return at once.  The result is the list of source units emitted
after the current point together with the error that stopped the loop, if
any; an error leaves every later record unprocessed. -/
def generateLoop (synth : String → Struct → Except String String) :
    List (String × Struct) → List (String × String) × Option String
  | [] => ([], none)
  | (nm, st) :: rest =>
    match synth nm st with
    | .error e => ([], some ("error executing template for struct " ++ nm ++ ": " ++ e))
    | .ok code =>
      let r := generateLoop synth rest
      ((nm, code) :: r.1, r.2)

/-- GenerateCode over a decoded format: runs the per-record loop and returns
either the emitted source units or the error of the record that failed. -/
def GenerateCode (synth : String → Struct → Except String String) (ff : FileFormat) :
    Except String (List (String × String)) :=
  let r := generateLoop synth ff.structs
  match r.2 with
  | some e => .error e
  | none => .ok r.1

/-- Configuration entry of formats.json, as in the config package. -/
structure FormatConfig where
  name : String
  yamlFile : String
  outputDir : String
  packageName : String
deriving DecidableEq

/-- Per-format loop of runGeneration: a generation error for one format is
logged and the loop continues with the remaining formats; each format that
generates successfully is kept with its emitted source units. -/
def runGenerationLoop (gen : FormatConfig → Except String (List (String × String))) :
    List FormatConfig → List (FormatConfig × List (String × String))
  | [] => []
  | c :: rest =>
    match gen c with
    | .error _ => runGenerationLoop gen rest
    | .ok files => (c, files) :: runGenerationLoop gen rest

/-! Configuration loader (config.LoadConfig).  The filesystem and the JSON
decoder are passed as oracles: reading a path either reports that no file
exists, fails, or yields the file content. -/

/-- Outcome of reading a file path. -/
inductive FileReadResult where
  | notExist : FileReadResult
  | readFailure : String → FileReadResult
  | content : String → FileReadResult
deriving DecidableEq

/-- LoadConfig: a missing configuration file yields the empty configuration
list with no error; a failing read or unparseable JSON content yields an
error; parseable content yields the parsed configuration list. -/
def LoadConfig (parseJson : String → Option (List FormatConfig))
    (fs : String → FileReadResult) (configPath : String) :
    Except String (List FormatConfig) :=
  match fs configPath with
  | .notExist => .ok []
  | .readFailure m =>
    .error ("failed to read configuration file " ++ configPath ++ ": " ++ m)
  | .content data =>
    match parseJson data with
    | some configs => .ok configs
    | none => .error ("failed to parse configuration file " ++ configPath)

/-! Key normalization (lowercaseFieldKeysRecursive in validator.go) over the
generic YAML representation.  Maps are association lists carrying the Go map
iteration order; the rebuilt map uses Go map insertion, which overwrites the
value of a key that is already present. -/

/-- Generic YAML value as unmarshalled before decoding into the model. -/
inductive Yaml where
  | str : String → Yaml
  | num : Int → Yaml
  | boolean : Bool → Yaml
  | null : Yaml
  | map : List (String × Yaml) → Yaml
  | list : List Yaml → Yaml

/-- Keys corresponding to the Field attribute tags. -/
def knownFieldKeys : List String := ["name", "type", "description", "length", "condition", "tags"]

/-- Normalization of one map key: a key whose lowercase form is a known field
attribute key is lowercased, any other key keeps its original casing. -/
def normKey (k : String) : String :=
  if goToLower k ∈ knownFieldKeys then goToLower k else k

/-- Insertion into the Go map being rebuilt: an already present key has its
value overwritten in place, a new key is appended in insertion order. -/
def goInsert (m : List (String × Yaml)) (k : String) (v : Yaml) : List (String × Yaml) :=
  if m.any (fun p => p.1 = k) then
    m.map (fun p => if p.1 = k then (k, v) else p)
  else m ++ [(k, v)]

/-- Rebuilding a Go map from processed key-value pairs in iteration order. -/
def goMapOfPairs (ps : List (String × Yaml)) : List (String × Yaml) :=
  ps.foldl (fun acc p => goInsert acc p.1 p.2) []

mutual

/-- lowercaseFieldKeysRecursive: values are processed recursively, then each
map is rebuilt with Go map insertion under the normalized key; slices are
processed elementwise and every other value is returned unchanged. -/
def lowercaseFieldKeysRecursive : Yaml → Yaml
  | .str s => .str s
  | .num n => .num n
  | .boolean b => .boolean b
  | .null => .null
  | .map es => .map (goMapOfPairs (lowerPairs es))
  | .list xs => .list (lowerEach xs)

/-- Key-value pairs of one map, processed in iteration order. -/
def lowerPairs : List (String × Yaml) → List (String × Yaml)
  | [] => []
  | (k, v) :: rest => (normKey k, lowercaseFieldKeysRecursive v) :: lowerPairs rest

/-- Elements of one slice, processed in order. -/
def lowerEach : List Yaml → List Yaml
  | [] => []
  | v :: rest => lowercaseFieldKeysRecursive v :: lowerEach rest

end

mutual

/-- Specified key normalization, following the loader contract of the
specification word for word: only the six known field attribute keys change,
each to its lowercase form, and every other key, every value and all
orderings are untouched. -/
def specKeyNormalize : Yaml → Yaml
  | .str s => .str s
  | .num n => .num n
  | .boolean b => .boolean b
  | .null => .null
  | .map es => .map (specKeyNormalizePairs es)
  | .list xs => .list (specKeyNormalizeEach xs)

/-- Pairwise specified rename of the entries of one map. -/
def specKeyNormalizePairs : List (String × Yaml) → List (String × Yaml)
  | [] => []
  | (k, v) :: rest => (normKey k, specKeyNormalize v) :: specKeyNormalizePairs rest

/-- Elementwise specified rename inside a slice. -/
def specKeyNormalizeEach : List Yaml → List Yaml
  | [] => []
  | v :: rest => specKeyNormalize v :: specKeyNormalizeEach rest

end

mutual

/-- Absence of key collisions under normalization: no two keys of any map in
the value normalize to the same string. -/
def noCollision : Yaml → Bool
  | .str _ => true
  | .num _ => true
  | .boolean _ => true
  | .null => true
  | .map es => decide (es.map (fun p => normKey p.1)).Nodup && pairsNoCollision es
  | .list xs => eachNoCollision xs

/-- Collision check on the values of the entries of one map. -/
def pairsNoCollision : List (String × Yaml) → Bool
  | [] => true
  | (_, v) :: rest => noCollision v && pairsNoCollision rest

/-- Collision check on the elements of one slice. -/
def eachNoCollision : List Yaml → Bool
  | [] => true
  | v :: rest => noCollision v && eachNoCollision rest

end

/-! Theorems.  Helper lemmas come first, then one theorem per claim with its
witness or counterexample. -/

/-- Decoding the little-endian encoding of a value below 2 to the 32 gives the
value back. -/
theorem leVal_u32le (n : Nat) (hn : n < 4294967296) : leVal (u32le n) = n := by
  simp only [u32le, leVal]
  omega

/-- A two-byte Go read from a stream holding at least two bytes takes exactly
the first two bytes. -/
theorem goRead_cons_two (a b : Byte) (t : List Byte) :
    goRead 2 (a :: b :: t) = .ok ([a, b], t) := by
  unfold goRead
  rw [if_neg (by simp)]
  have hz : 2 - (a :: b :: t).length = 0 := by simp
  rw [hz]
  simp [List.take, List.drop]

/-- A full read of n bytes from a stream holding at least n bytes succeeds
and consumes exactly n bytes. -/
theorem readFull_of_le (n : Nat) (l : List Byte) (h : n ≤ l.length) :
    readFull n l = .ok (l.take n, l.drop n) := by
  unfold readFull
  rw [if_neg (by omega)]

/-- C7: for positive bitsPerPixel divisible by 8, CalculatePaddedSize follows
the padded-row formula: height times (bytesPerRow plus padding), with
bytesPerRow equal to width times bitsPerPixel over 8 and padding rounding the
row up to a 4-byte boundary. -/
theorem calculatePaddedSize_formula (w h bpp : Nat) (hpos : 0 < bpp) (hmul : bpp % 8 = 0) :
    CalculatePaddedSize w h bpp
      = .ok (h * (w * (bpp / 8) + (4 - w * (bpp / 8) % 4) % 4)) := by
  have h8 : 8 ≤ bpp := Nat.le_of_dvd hpos (Nat.dvd_of_mod_eq_zero hmul)
  have hq : ¬ bpp / 8 = 0 := by omega
  simp only [CalculatePaddedSize]
  rw [if_neg (by omega), if_neg hq]

/-- C7 witness: the concrete scenario width 2, height 2, bitsPerPixel 24
yields 16, through the formula theorem. -/
theorem calculatePaddedSize_formula_witness :
    0 < 24 ∧ 24 % 8 = 0 ∧ CalculatePaddedSize 2 2 24 = .ok 16 := by
  refine ⟨by decide, by decide, ?_⟩
  rw [calculatePaddedSize_formula 2 2 24 (by decide) (by decide)]

/-- C10: a missing configuration file yields the empty configuration list
with no error, and LoadConfig errors only when an existing file fails to read
or its content fails to parse as JSON. -/
theorem loadConfig_missing_file_ok (parseJson : String → Option (List FormatConfig))
    (fs : String → FileReadResult) (p : String) :
    (fs p = .notExist → LoadConfig parseJson fs p = .ok []) ∧
    (∀ e, LoadConfig parseJson fs p = .error e →
      (∃ m, fs p = .readFailure m) ∨ (∃ d, fs p = .content d ∧ parseJson d = none)) := by
  constructor
  · intro h
    simp [LoadConfig, h]
  · intro e he
    cases hfs : fs p with
    | notExist => simp [LoadConfig, hfs] at he
    | readFailure m => exact Or.inl ⟨m, rfl⟩
    | content d =>
      cases hp : parseJson d with
      | some cfgs => simp [LoadConfig, hfs, hp] at he
      | none => exact Or.inr ⟨d, rfl, hp⟩

/-- C10 witness: a filesystem without the file gives the empty configuration,
by the theorem applied at concrete oracles. -/
theorem loadConfig_missing_file_ok_witness :
    LoadConfig (fun _ => none) (fun _ => .notExist) "formats.json" = .ok [] :=
  (loadConfig_missing_file_ok (fun _ => none) (fun _ => .notExist) "formats.json").1 rfl

/-- C1 counterexample: the generated ImageData codec drops its unconditioned
PixelData field, whose declared length expression evaluates to 16 at width 2,
height 2 and 24 bits per pixel; writing an ImageData holding exactly those 16
bytes and reading the result back returns PixelData at its zero value, so
read after write is not the identity on condition-true fields for every
generated codec. -/
theorem imageData_roundtrip_drops_pixelData :
    CalculatePaddedSize 2 2 24 = .ok 16 ∧
    ImageData.Read (ImageData.Write
        { Width := 2, Height := 2, PixelData := List.replicate 16 1 })
      = .ok ({ Width := 2, Height := 2, PixelData := [] }, []) ∧
    ImageData.mk 2 2 [] ≠ ImageData.mk 2 2 (List.replicate 16 1) :=
  ⟨rfl, rfl, by decide⟩

/-- C1 as amended: for the generated simplebmp Header codec, reading back the
written bytes is the identity on every Header whose Signature holds exactly
its declared two bytes and whose numeric fields fit in a uint32; the
generated ImageData codec instead omits its expression-length PixelData field
on both sides, so reading after writing zeroes that field. -/
theorem header_write_read_identity (h : Header)
    (hsig : h.Signature.length = 2)
    (h1 : h.FileSize < 4294967296) (h2 : h.Reserved < 4294967296)
    (h3 : h.DataOffset < 4294967296) :
    Header.Read (Header.Write h) = .ok (h, []) := by
  obtain ⟨sg, fs, rv, dof⟩ := h
  dsimp only at hsig h1 h2 h3
  obtain ⟨a, b, rfl⟩ := List.length_eq_two.mp hsig
  have hw : Header.Write (Header.mk [a, b] fs rv dof)
      = a :: b :: (u32le fs ++ (u32le rv ++ u32le dof)) := by
    simp [Header.Write]
  unfold Header.Read
  rw [hw, goRead_cons_two]
  dsimp only
  rw [readFull_of_le 4 _ (by simp [u32le]),
    @List.take_left' _ (u32le fs) (u32le rv ++ u32le dof) 4 (by simp [u32le]),
    @List.drop_left' _ (u32le fs) (u32le rv ++ u32le dof) 4 (by simp [u32le])]
  dsimp only
  rw [readFull_of_le 4 _ (by simp [u32le]),
    @List.take_left' _ (u32le rv) (u32le dof) 4 (by simp [u32le]),
    @List.drop_left' _ (u32le rv) (u32le dof) 4 (by simp [u32le])]
  dsimp only
  rw [readFull_of_le 4 _ (by simp [u32le])]
  have ht : (u32le dof).take 4 = u32le dof := by simp [u32le]
  have hd : (u32le dof).drop 4 = [] := by simp [u32le]
  rw [ht, hd]
  dsimp only
  rw [leVal_u32le fs h1, leVal_u32le rv h2, leVal_u32le dof h3]

/-- C1 witness: a concrete Header round-trips, by the identity theorem. -/
theorem header_write_read_identity_witness :
    (Header.mk [66, 77] 14 0 54).Signature.length = 2 ∧
    Header.Read (Header.Write (Header.mk [66, 77] 14 0 54))
      = .ok (Header.mk [66, 77] 14 0 54, []) :=
  ⟨rfl, header_write_read_identity _ rfl (by decide) (by decide) (by decide)⟩

/-- C2 counterexample: encoding a Header whose Signature holds three bytes
for the length-2 field is not rejected: Write is total, emits all three
signature bytes verbatim, and the record is 15 bytes instead of 14. -/
theorem signature_length_mismatch_not_rejected :
    Header.Write (Header.mk [66, 77, 88] 1 0 54)
      = [66, 77, 88, 1, 0, 0, 0, 0, 0, 0, 0, 54, 0, 0, 0] ∧
    (Header.Write (Header.mk [66, 77, 88] 1 0 54)).length ≠ 14 :=
  ⟨rfl, by decide⟩

/-- C2 as amended: the generated decode consumes exactly the declared two
bytes for the fixed-length Signature field (its decoded value is exactly the
first two input bytes), but the generated encode writes the current content
of the field in full, whatever its length, with no mismatch check: content of
a different length is silently written, never rejected, truncated or
padded. -/
theorem fixed_length_decode_exact_encode_unchecked (h : Header) (pre post : List Byte)
    (hpre : pre.length = 2) (hpost : post.length = 12) :
    (Header.Write h).length = h.Signature.length + 12 ∧
    ∃ hd : Header, Header.Read (pre ++ post) = .ok (hd, []) ∧ hd.Signature = pre := by
  constructor
  · simp [Header.Write, u32le]
  · obtain ⟨a, b, rfl⟩ := List.length_eq_two.mp hpre
    refine ⟨⟨[a, b], leVal (post.take 4), leVal ((post.drop 4).take 4),
        leVal (((post.drop 4).drop 4).take 4)⟩, ?_, rfl⟩
    have hcons : ([a, b] : List Byte) ++ post = a :: b :: post := rfl
    unfold Header.Read
    rw [hcons, goRead_cons_two]
    dsimp only
    rw [readFull_of_le 4 post (by omega)]
    dsimp only
    rw [readFull_of_le 4 (post.drop 4) (by simp [hpost])]
    dsimp only
    rw [readFull_of_le 4 ((post.drop 4).drop 4) (by simp [hpost])]
    dsimp only
    have hz : (((post.drop 4).drop 4).drop 4) = [] := by
      have : (((post.drop 4).drop 4).drop 4).length = 0 := by simp [hpost]
      exact List.eq_nil_of_length_eq_zero this
    rw [hz]

/-- C2 witness: concrete instantiation of the amended statement. -/
theorem fixed_length_decode_exact_encode_unchecked_witness :
    (Header.Write (Header.mk [66, 77] 14 0 54)).length = 2 + 12 ∧
    ∃ hd : Header, Header.Read ([66, 77] ++ List.replicate 12 0) = .ok (hd, []) ∧
      hd.Signature = [66, 77] :=
  fixed_length_decode_exact_encode_unchecked (Header.mk [66, 77] 14 0 54)
    [66, 77] (List.replicate 12 0) rfl rfl

/-- C4 counterexample: with a synthesis oracle failing on record A and
succeeding on record B, the per-record loop of GenerateCode over the
iteration order A then B emits nothing and stops with the error of A, even
though B on its own would synthesize fine — a per-record failure does block
the remaining records of the same descriptor. -/
theorem synthesis_failure_blocks_remaining_records :
    generateLoop (fun nm _ => if nm = "A" then .error "boom" else .ok "unit")
        [("A", Struct.mk []), ("B", Struct.mk [])]
      = ([], some "error executing template for struct A: boom") ∧
    (fun nm (_ : Struct) =>
        if nm = "A" then (Except.error "boom" : Except String String) else .ok "unit")
      "B" (Struct.mk []) = .ok "unit" :=
  ⟨rfl, rfl⟩

/-- C4 as amended: a synthesis failure for one record makes GenerateCode
return at once with that error, so only the records before it in iteration
order are emitted and every later record of the same descriptor is left
unprocessed; the driver then logs the failed format and continues with the
remaining formats, so isolation is descriptor-scoped, not record-scoped. -/
theorem synthesis_failure_aborts_descriptor
    (synth : String → Struct → Except String String)
    (pre : List (String × Struct)) (nm : String) (st : Struct)
    (post : List (String × Struct)) (e : String)
    (hpre : ∀ p ∈ pre, ∃ c, synth p.1 p.2 = .ok c)
    (hfail : synth nm st = .error e)
    (gen : FormatConfig → Except String (List (String × String)))
    (c : FormatConfig) (cfgs : List FormatConfig) (eg : String)
    (hgen : gen c = .error eg) :
    (generateLoop synth (pre ++ (nm, st) :: post)).2
      = some ("error executing template for struct " ++ nm ++ ": " ++ e) ∧
    (generateLoop synth (pre ++ (nm, st) :: post)).1.map Prod.fst = pre.map Prod.fst ∧
    runGenerationLoop gen (c :: cfgs) = runGenerationLoop gen cfgs := by
  refine ⟨?_, ?_, ?_⟩
  · induction pre with
    | nil => simp [generateLoop, hfail]
    | cons p rest ih =>
      obtain ⟨pn, ps⟩ := p
      obtain ⟨c0, hc0⟩ := hpre (pn, ps) (by simp)
      simp only [List.cons_append, generateLoop, hc0]
      exact ih (fun q hq => hpre q (by simp [hq]))
  · induction pre with
    | nil => simp [generateLoop, hfail]
    | cons p rest ih =>
      obtain ⟨pn, ps⟩ := p
      obtain ⟨c0, hc0⟩ := hpre (pn, ps) (by simp)
      simp only [List.cons_append, generateLoop, hc0, List.map_cons]
      exact congrArg (List.cons pn) (ih (fun q hq => hpre q (by simp [hq])))
  · simp [runGenerationLoop, hgen]

/-- C4 witness: concrete instantiation with a failure on record B between
records A and C, and a driver that skips the failing format. -/
theorem synthesis_failure_aborts_descriptor_witness :
    (generateLoop (fun nm _ => if nm = "B" then .error "x" else .ok "u")
        ([("A", Struct.mk [])] ++ ("B", Struct.mk []) :: [("C", Struct.mk [])])).2
      = some ("error executing template for struct " ++ "B" ++ ": " ++ "x") ∧
    (generateLoop (fun nm _ => if nm = "B" then .error "x" else .ok "u")
        ([("A", Struct.mk [])] ++ ("B", Struct.mk []) :: [("C", Struct.mk [])])).1.map Prod.fst
      = [("A", Struct.mk [])].map Prod.fst ∧
    runGenerationLoop (fun _ => .error "y") (FormatConfig.mk "F" "" "" "" :: [])
      = runGenerationLoop (fun _ => .error "y") [] :=
  synthesis_failure_aborts_descriptor
    (fun nm _ => if nm = "B" then .error "x" else .ok "u")
    [("A", Struct.mk [])] "B" (Struct.mk []) [("C", Struct.mk [])] "x"
    (by intro p hp; simp at hp; subst hp; exact ⟨"u", rfl⟩)
    rfl (fun _ => .error "y") (FormatConfig.mk "F" "" "" "") [] "y" rfl

/-- C8 counterexample: with every record synthesizing successfully, the loop
over the iteration order B then A emits B before A; the emitted order is the
map iteration order, not the alphabetical order of record names. -/
theorem emission_not_sorted_by_name :
    (generateLoop (fun _ _ => .ok "unit")
        [("B", Struct.mk []), ("A", Struct.mk [])]).1.map Prod.fst = ["B", "A"] ∧
    (["B", "A"] : List String) ≠ ["A", "B"] :=
  ⟨rfl, by decide⟩

/-- C8 as amended: GenerateCode ranges directly over the structs map with no
sorting, so when every record synthesizes the emitted source units appear
exactly in map iteration order; since Go randomizes map iteration, repeated
runs are not guaranteed a fixed record order (only the list of imports of
each generated file is sorted, and the separate test-script generator sorts
struct names). -/
theorem emission_follows_iteration_order
    (synth : String → Struct → Except String String)
    (structs : List (String × Struct))
    (hok : ∀ p ∈ structs, ∃ c, synth p.1 p.2 = .ok c) :
    (generateLoop synth structs).1.map Prod.fst = structs.map Prod.fst ∧
    (generateLoop synth structs).2 = none := by
  induction structs with
  | nil => exact ⟨rfl, rfl⟩
  | cons p rest ih =>
    obtain ⟨pn, ps⟩ := p
    obtain ⟨c0, hc0⟩ := hok (pn, ps) (by simp)
    have hrest := ih (fun q hq => hok q (by simp [hq]))
    simp only [generateLoop, hc0, List.map_cons]
    exact ⟨congrArg (List.cons pn) hrest.1, hrest.2⟩

/-- C8 witness: concrete instantiation on the iteration order B then A. -/
theorem emission_follows_iteration_order_witness :
    (generateLoop (fun _ _ => .ok "unit")
        [("B", Struct.mk []), ("A", Struct.mk [])]).1.map Prod.fst
      = ([("B", Struct.mk []), ("A", Struct.mk [])]).map Prod.fst ∧
    (generateLoop (fun _ _ => .ok "unit")
        [("B", Struct.mk []), ("A", Struct.mk [])]).2 = none :=
  emission_follows_iteration_order (fun _ _ => .ok "unit")
    [("B", Struct.mk []), ("A", Struct.mk [])]
    (by intro p hp; exact ⟨"unit", rfl⟩)

/-- Trimming the empty string is the empty string. -/
theorem goTrim_empty : goTrim "" = "" := rfl

/-- The canonical manual-length token does not parse as an integer. -/
theorem atoiOpt_needs_manual : atoiOpt "NEEDS_MANUAL_LENGTH" = none := rfl

/-- The canonical manual-length token passes the static length check. -/
theorem isValid_needs_manual : IsValidLengthExpression "NEEDS_MANUAL_LENGTH" = true := rfl

/-- The ellipsis placeholder does not parse as an integer. -/
theorem atoiOpt_ellipsis : atoiOpt "..." = none := rfl

/-- The static length check fails exactly on blank lengths and the ellipsis
placeholder. -/
theorem isValid_false_iff (s : String) :
    IsValidLengthExpression s = false ↔ (goTrim s = "" ∨ goTrim s = "...") := by
  unfold IsValidLengthExpression
  split_ifs with h <;> simp [h]

/-- A digit is not whitespace. -/
theorem goIsSpace_of_isDigit (c : Char) (h : c.isDigit = true) : goIsSpace c = false := by
  by_contra hs
  rw [Bool.not_eq_false] at hs
  simp only [goIsSpace, Bool.or_eq_true, beq_iff_eq] at hs
  rcases hs with ((rfl | rfl) | rfl) | rfl <;> exact absurd h (by decide)

/-- Dropping a prefix by a predicate that holds nowhere leaves the list. -/
theorem dropWhile_eq_self_of_forall {α : Type} (p : α → Bool) (l : List α)
    (h : ∀ x ∈ l, p x = false) : l.dropWhile p = l := by
  cases l with
  | nil => rfl
  | cons a t =>
    rw [List.dropWhile_cons, if_neg]
    simp [h a (by simp)]

/-- Trimming a string with no whitespace characters leaves it unchanged. -/
theorem goTrim_eq_self_of_forall (s : String) (h : ∀ x ∈ s.toList, goIsSpace x = false) :
    goTrim s = s := by
  unfold goTrim
  rw [dropWhile_eq_self_of_forall _ _ h,
    dropWhile_eq_self_of_forall _ _ (fun x hx => h x (List.mem_reverse.mp hx)),
    List.reverse_reverse]
  cases s
  rfl

/-- A successful digit-part parse means the characters are all digits. -/
theorem atoiDigits_some (ds : List Char) (v : Nat) (h : atoiDigits ds = some v) :
    ∀ x ∈ ds, x.isDigit = true := by
  unfold atoiDigits at h
  split_ifs at h with h1 h2
  exact List.all_eq_true.mp h2

/-- A string that parses as an integer consists of a sign and digits, so
trimming it leaves it unchanged. -/
theorem goTrim_of_atoi (s : String) (n : Int) (h : atoiOpt s = some n) : goTrim s = s := by
  apply goTrim_eq_self_of_forall
  unfold atoiOpt at h
  cases hs : s.toList with
  | nil => rw [hs] at h; cases h
  | cons c cs =>
    rw [hs] at h
    dsimp only at h
    intro x hx
    by_cases h1 : c = '-'
    · rw [if_pos h1] at h
      cases hv : atoiDigits cs with
      | none => rw [hv] at h; cases h
      | some v =>
        rcases List.mem_cons.mp hx with rfl | hx2
        · rw [h1]; decide
        · exact goIsSpace_of_isDigit x (atoiDigits_some cs v hv x hx2)
    · by_cases h1b : c = '+'
      · rw [if_neg h1, if_pos h1b] at h
        cases hv : atoiDigits cs with
        | none => rw [hv] at h; cases h
        | some v =>
          rcases List.mem_cons.mp hx with rfl | hx2
          · rw [h1b]; decide
          · exact goIsSpace_of_isDigit x (atoiDigits_some cs v hv x hx2)
      · rw [if_neg h1, if_neg h1b] at h
        cases hv : atoiDigits (c :: cs) with
        | none => rw [hv] at h; cases h
        | some v =>
          exact goIsSpace_of_isDigit x (atoiDigits_some (c :: cs) v hv x hx)

/-- One field contributes a positive hard-error count exactly when it shows
one of the hard error kinds named by the specification. -/
theorem validateReformField_errors_pos_iff (f : Field) :
    0 < (validateReformField f).2.1 ↔ specHardError f := by
  by_cases hT : goTrim f.type = ""
  · simp [validateReformField, specHardError, hT]
  by_cases hSB : f.type = "string" ∨ f.type = "[]byte"
  · by_cases hL0 : f.length = ""
    · simp [validateReformField, specHardError, hT, hSB, hL0, goTrim_empty]
    · by_cases hRef : goTrim f.length = "..."
      · have hne : atoiOpt f.length = none := by
          cases hA : atoiOpt f.length with
          | none => rfl
          | some n =>
            have hself := goTrim_of_atoi f.length n hA
            rw [hself] at hRef
            rw [hRef] at hA
            rw [atoiOpt_ellipsis] at hA
            cases hA
        by_cases hC : f.condition ≠ "" ∧ goTrim f.condition = ""
        · simp [validateReformField, specHardError, hT, hSB, hL0, hRef, hne,
            atoiOpt_needs_manual, isValid_needs_manual, hC]
        · simp [validateReformField, specHardError, hT, hSB, hL0, hRef, hne,
            atoiOpt_needs_manual, isValid_needs_manual, hC]
      · cases hA : atoiOpt f.length with
        | some n =>
          have hself := goTrim_of_atoi f.length n hA
          have hTrim0 : ¬ goTrim f.length = "" := by
            rw [hself]
            exact hL0
          by_cases hNeg : n ≤ 0
          · simp [validateReformField, specHardError, hT, hSB, hL0, hRef, hA,
              hNeg, hTrim0]
          · by_cases hC : f.condition ≠ "" ∧ goTrim f.condition = ""
            · simp [validateReformField, specHardError, hT, hSB, hL0, hRef, hA,
                hNeg, hTrim0, hC]
            · simp [validateReformField, specHardError, hT, hSB, hL0, hRef, hA,
                hNeg, hTrim0, hC]
        | none =>
          by_cases hV : IsValidLengthExpression f.length = true
          · have hTrim0 : ¬ goTrim f.length = "" := by
              intro h0
              have hfalse := (isValid_false_iff f.length).mpr (Or.inl h0)
              rw [hV] at hfalse
              cases hfalse
            by_cases hC : f.condition ≠ "" ∧ goTrim f.condition = ""
            · simp [validateReformField, specHardError, hT, hSB, hL0, hRef, hA,
                hV, hTrim0, hC]
            · simp [validateReformField, specHardError, hT, hSB, hL0, hRef, hA,
                hV, hTrim0, hC]
          · have hfalse : IsValidLengthExpression f.length = false := by
              cases hb : IsValidLengthExpression f.length
              · rfl
              · exact absurd hb hV
            have hTrim0 : goTrim f.length = "" := by
              rcases (isValid_false_iff f.length).mp hfalse with h0 | h0
              · exact h0
              · exact absurd h0 hRef
            simp [validateReformField, specHardError, hT, hSB, hL0, hRef, hA,
              hfalse, hTrim0]
  · by_cases hC : f.condition ≠ "" ∧ goTrim f.condition = ""
    · simp [validateReformField, specHardError, hT, hSB, hC]
    · simp [validateReformField, specHardError, hT, hSB, hC]

/-- A field list accumulates a positive hard-error count exactly when some
field of the list shows a hard error. -/
theorem validateReformFields_errors_pos_iff (fs : List Field) :
    0 < (validateReformFields fs).2.1 ↔ ∃ f ∈ fs, specHardError f := by
  induction fs with
  | nil => simp [validateReformFields]
  | cons f rest ih =>
    simp only [validateReformFields]
    constructor
    · intro h
      have hsplit : 0 < (validateReformField f).2.1 ∨ 0 < (validateReformFields rest).2.1 := by
        omega
      rcases hsplit with h1 | h2
      · exact ⟨f, by simp, (validateReformField_errors_pos_iff f).mp h1⟩
      · obtain ⟨g, hg, hspec⟩ := ih.mp h2
        exact ⟨g, by simp [hg], hspec⟩
    · rintro ⟨g, hg, hspec⟩
      rcases List.mem_cons.mp hg with rfl | hg2
      · have := (validateReformField_errors_pos_iff g).mpr hspec
        omega
      · have := ih.mpr ⟨g, hg2, hspec⟩
        omega

/-- The whole-format walk accumulates a positive hard-error count exactly
when some field of some struct shows a hard error. -/
theorem validateReformFormat_errors_pos_iff (ss : List (String × Struct)) :
    0 < (validateReformFormat ss).2.1 ↔ ∃ p ∈ ss, ∃ f ∈ p.2.fields, specHardError f := by
  induction ss with
  | nil => simp [validateReformFormat]
  | cons p rest ih =>
    obtain ⟨nm, st⟩ := p
    simp only [validateReformFormat]
    constructor
    · intro h
      have hsplit : 0 < (validateReformFields st.fields).2.1 ∨
          0 < (validateReformFormat rest).2.1 := by omega
      rcases hsplit with h1 | h2
      · obtain ⟨g, hg, hspec⟩ := (validateReformFields_errors_pos_iff st.fields).mp h1
        exact ⟨(nm, st), by simp, g, hg, hspec⟩
      · obtain ⟨q, hq, g, hg, hspec⟩ := ih.mp h2
        exact ⟨q, by simp [hq], g, hg, hspec⟩
    · rintro ⟨q, hq, g, hg, hspec⟩
      rcases List.mem_cons.mp hq with rfl | hq2
      · have := (validateReformFields_errors_pos_iff st.fields).mpr ⟨g, hg, hspec⟩
        omega
      · have := ih.mpr ⟨q, hq2, g, hg, hspec⟩
        omega

/-- C3: given a descriptor that loaded and decoded, ValidateAndReformYAML
returns an error exactly when its full walk over all records finds at least
one hard validation error (an empty type, a string or byte-slice field with
a blank length, a non-positive fixed integer length, or a whitespace-only
condition); the errors are accumulated over the whole walk, in the error
case no reformed descriptor is produced (so generation is never attempted),
and warning-only findings never produce the error outcome. -/
theorem validator_error_iff_hard_error (ff : FileFormat) :
    (∃ e, ValidateAndReformYAML ff = .error e) ↔
      ∃ p ∈ ff.structs, ∃ f ∈ p.2.fields, specHardError f := by
  unfold ValidateAndReformYAML
  by_cases h : 0 < (validateReformFormat ff.structs).2.1
  · constructor
    · intro _
      exact (validateReformFormat_errors_pos_iff ff.structs).mp h
    · intro _
      refine ⟨"found " ++ toString (validateReformFormat ff.structs).2.1
        ++ " critical validation error(s)", ?_⟩
      simp [h]
  · constructor
    · rintro ⟨e, he⟩
      simp [h] at he
    · intro hr
      exact absurd ((validateReformFormat_errors_pos_iff ff.structs).mpr hr) h

/-- C3 witness: a descriptor holding one string field with a blank length is
rejected, through the iff applied at that concrete descriptor. -/
theorem validator_error_iff_hard_error_witness :
    ∃ e, ValidateAndReformYAML (FileFormat.mk "x" ""
        [("S", Struct.mk [Field.mk "f" "string" "" "" "" ""])]) = .error e :=
  (validator_error_iff_hard_error (FileFormat.mk "x" ""
      [("S", Struct.mk [Field.mk "f" "string" "" "" "" ""])])).mpr
    ⟨("S", Struct.mk [Field.mk "f" "string" "" "" "" ""]), by simp,
      Field.mk "f" "string" "" "" "" "", by simp,
      Or.inr (Or.inl ⟨Or.inl rfl, rfl⟩)⟩

/-- C5 counterexample: a uint32 field whose length is the ellipsis
placeholder is left untouched by the validator pass and counts zero
reformations, because the reform only happens inside the string and
byte-slice branch of the type switch. -/
theorem ellipsis_not_reformed_on_numeric_field :
    validateReformField (Field.mk "Flags" "uint32" "" "..." "" "")
      = (Field.mk "Flags" "uint32" "" "..." "" "", 0, 0) := rfl

/-- C5 as amended: for every field of type string or byte-slice whose length
trims to the ellipsis placeholder, one validator pass replaces the length
with the canonical NEEDS_MANUAL_LENGTH token and counts exactly one
reformation, regardless of the surrounding fields; fields of any other type
keep the placeholder and count no reformation. -/
theorem ellipsis_reform_string_bytes (f : Field)
    (ht : f.type = "string" ∨ f.type = "[]byte")
    (hl : goTrim f.length = "...") :
    (validateReformField f).1.length = "NEEDS_MANUAL_LENGTH" ∧
    (validateReformField f).2.2 = 1 := by
  have hT : ¬ goTrim f.type = "" := by
    rcases ht with h | h <;> rw [h] <;> decide
  have hL0 : ¬ f.length = "" := by
    intro h0
    rw [h0] at hl
    exact absurd hl (by decide)
  simp [validateReformField, hT, ht, hL0, hl]

/-- C5 witness: the reform theorem applied to a concrete string field with a
padded ellipsis length. -/
theorem ellipsis_reform_string_bytes_witness :
    (validateReformField (Field.mk "PixelData" "[]byte" "" " ... " "" "")).1.length
      = "NEEDS_MANUAL_LENGTH" ∧
    (validateReformField (Field.mk "PixelData" "[]byte" "" " ... " "" "")).2.2 = 1 :=
  ellipsis_reform_string_bytes (Field.mk "PixelData" "[]byte" "" " ... " "" "")
    (Or.inr rfl) (by decide)

/-- A field that the pass accepted (zero errors) is a fixed point of the
pass afterwards: running it again changes nothing, finds no error and
counts no reformation. -/
theorem validateReformField_idem (f : Field) (h : (validateReformField f).2.1 = 0) :
    validateReformField (validateReformField f).1 = ((validateReformField f).1, 0, 0) := by
  by_cases hT : goTrim f.type = ""
  · simp [validateReformField, hT] at h
  by_cases hSB : f.type = "string" ∨ f.type = "[]byte"
  · by_cases hL0 : f.length = ""
    · simp [validateReformField, hT, hSB, hL0] at h
    · by_cases hRef : goTrim f.length = "..."
      · have hNE : ¬ ("NEEDS_MANUAL_LENGTH" : String) = "" := by decide
        have hNT : ¬ goTrim "NEEDS_MANUAL_LENGTH" = "..." := by decide
        have hf2 : (validateReformField f).1 = { f with length := "NEEDS_MANUAL_LENGTH" } := by
          simp [validateReformField, hT, hSB, hL0, hRef]
        have hcond : ¬ (f.condition ≠ "" ∧ goTrim f.condition = "") := by
          intro hc
          have hone : (validateReformField f).2.1 = 1 := by
            simp [validateReformField, hT, hSB, hL0, hRef, atoiOpt_needs_manual,
              isValid_needs_manual, hc]
          omega
        rw [hf2]
        simp [validateReformField, hT, hSB, hNE, hNT, atoiOpt_needs_manual,
          isValid_needs_manual, hcond]
      · have h1 : (validateReformField f).1 = f := by
          simp [validateReformField, hT, hSB, hL0, hRef]
        have hr : (validateReformField f).2.2 = 0 := by
          simp [validateReformField, hT, hSB, hL0, hRef]
        rw [h1]
        exact Prod.ext h1 (Prod.ext h hr)
  · have h1 : (validateReformField f).1 = f := by
      simp [validateReformField, hT, hSB]
    have hr : (validateReformField f).2.2 = 0 := by
      simp [validateReformField, hT, hSB]
    rw [h1]
    exact Prod.ext h1 (Prod.ext h hr)

/-- A field list that the pass accepted is a fixed point of the pass: the
second walk changes nothing and counts zero errors and reformations. -/
theorem validateReformFields_idem (fs : List Field)
    (h : (validateReformFields fs).2.1 = 0) :
    validateReformFields (validateReformFields fs).1
      = ((validateReformFields fs).1, 0, 0) := by
  induction fs with
  | nil => rfl
  | cons f rest ih =>
    have hsplit : (validateReformField f).2.1 = 0 ∧ (validateReformFields rest).2.1 = 0 := by
      simp only [validateReformFields] at h
      omega
    simp only [validateReformFields]
    rw [validateReformField_idem f hsplit.1, ih hsplit.2]
    simp

/-- A struct map that the pass accepted is a fixed point of the pass. -/
theorem validateReformFormat_idem (ss : List (String × Struct))
    (h : (validateReformFormat ss).2.1 = 0) :
    validateReformFormat (validateReformFormat ss).1
      = ((validateReformFormat ss).1, 0, 0) := by
  induction ss with
  | nil => rfl
  | cons p rest ih =>
    obtain ⟨nm, st⟩ := p
    have hsplit : (validateReformFields st.fields).2.1 = 0 ∧
        (validateReformFormat rest).2.1 = 0 := by
      simp only [validateReformFormat] at h
      omega
    simp only [validateReformFormat]
    rw [validateReformFields_idem st.fields hsplit.1, ih hsplit.2]
    simp

/-- C9: the validator is idempotent: when a pass accepts a descriptor
(returning a reformed descriptor, possibly after reformations), a second
pass over the reformed descriptor accepts it with zero further reformations
and zero hard errors. -/
theorem validator_idempotent (ff ff2 : FileFormat) (refs : Nat)
    (h : ValidateAndReformYAML ff = .ok (ff2, refs)) :
    ValidateAndReformYAML ff2 = .ok (ff2, 0) := by
  unfold ValidateAndReformYAML at h
  by_cases hp : 0 < (validateReformFormat ff.structs).2.1
  · simp [hp] at h
  · rw [if_neg (by omega)] at h
    have hz : (validateReformFormat ff.structs).2.1 = 0 := by omega
    have hidem := validateReformFormat_idem ff.structs hz
    obtain ⟨h1, h2⟩ := Prod.mk.injEq .. ▸ (Except.ok.injEq .. ▸ h)
    subst h1
    unfold ValidateAndReformYAML
    simp [hidem]

/-- C9 witness: a one-field descriptor whose length is the ellipsis
placeholder is accepted with one reformation; the idempotence theorem then
gives that a second pass over the reformed output is a no-op. -/
theorem validator_idempotent_witness :
    ValidateAndReformYAML (FileFormat.mk "bmp" ""
        [("S", Struct.mk [Field.mk "f" "string" "" "NEEDS_MANUAL_LENGTH" "" ""])])
      = .ok (FileFormat.mk "bmp" ""
        [("S", Struct.mk [Field.mk "f" "string" "" "NEEDS_MANUAL_LENGTH" "" ""])], 0) :=
  validator_idempotent
    (FileFormat.mk "bmp" "" [("S", Struct.mk [Field.mk "f" "string" "" "..." "" ""])])
    (FileFormat.mk "bmp" ""
      [("S", Struct.mk [Field.mk "f" "string" "" "NEEDS_MANUAL_LENGTH" "" ""])])
    1 rfl

/-- Inserting a key that is not yet present appends the binding. -/
theorem goInsert_fresh (m : List (String × Yaml)) (k : String) (v : Yaml)
    (h : ∀ p ∈ m, p.1 ≠ k) : goInsert m k v = m ++ [(k, v)] := by
  unfold goInsert
  rw [if_neg]
  simp only [List.any_eq_true, decide_eq_true_eq, not_exists, not_and]
  intro p hp
  exact h p hp

/-- Folding Go map insertion over pairwise fresh keys preserves the list. -/
theorem foldl_goInsert_nodup (ps acc : List (String × Yaml))
    (h : ((acc ++ ps).map Prod.fst).Nodup) :
    ps.foldl (fun a p => goInsert a p.1 p.2) acc = acc ++ ps := by
  induction ps generalizing acc with
  | nil => simp
  | cons p rest ih =>
    obtain ⟨k, v⟩ := p
    have hk : ∀ q ∈ acc, q.1 ≠ k := by
      intro q hq
      have hm := h
      rw [List.map_append] at hm
      have hd := (List.nodup_append.mp hm).2.2
      intro hqk
      exact hd (hqk ▸ List.mem_map_of_mem Prod.fst hq) (by simp)
    rw [List.foldl_cons, goInsert_fresh acc k v hk]
    have hass : (acc ++ [(k, v)]) ++ rest = acc ++ (k, v) :: rest := by
      simp
    rw [ih (acc ++ [(k, v)]) (by rw [hass]; exact h), hass]

/-- Building the Go map from pairs whose keys are pairwise distinct gives
back exactly those pairs in order. -/
theorem goMapOfPairs_nodup (ps : List (String × Yaml))
    (h : (ps.map Prod.fst).Nodup) : goMapOfPairs ps = ps := by
  unfold goMapOfPairs
  exact foldl_goInsert_nodup ps [] (by simpa using h)

/-- The keys produced by the processing pass are the normalized keys. -/
theorem lowerPairs_keys (es : List (String × Yaml)) :
    (lowerPairs es).map Prod.fst = es.map (fun p => normKey p.1) := by
  induction es with
  | nil => rfl
  | cons p rest ih =>
    obtain ⟨k, v⟩ := p
    simp [lowerPairs, ih]

mutual

/-- On collision-free values, the recursive key normalization of the
validator agrees with the pure specified rename. -/
theorem lower_eq_specKeyNormalize :
    ∀ y : Yaml, noCollision y = true → lowercaseFieldKeysRecursive y = specKeyNormalize y
  | .str _, _ => rfl
  | .num _, _ => rfl
  | .boolean _, _ => rfl
  | .null, _ => rfl
  | .map es, h => by
    have hparts : (es.map (fun p => normKey p.1)).Nodup ∧ pairsNoCollision es = true := by
      simpa [noCollision] using h
    have hkeys := hparts.1
    have hvals := hparts.2
    show Yaml.map (goMapOfPairs (lowerPairs es)) = Yaml.map (specKeyNormalizePairs es)
    rw [goMapOfPairs_nodup (lowerPairs es) (by rw [lowerPairs_keys]; exact hkeys)]
    exact congrArg Yaml.map (lowerPairs_eq_spec es hvals)
  | .list xs, h => by
    show Yaml.list (lowerEach xs) = Yaml.list (specKeyNormalizeEach xs)
    exact congrArg Yaml.list (lowerEach_eq_spec xs (by simpa [noCollision] using h))

/-- Entrywise version of the agreement, over the entries of one map. -/
theorem lowerPairs_eq_spec :
    ∀ es : List (String × Yaml), pairsNoCollision es = true →
      lowerPairs es = specKeyNormalizePairs es
  | [], _ => rfl
  | (k, v) :: rest, h => by
    have hparts : noCollision v = true ∧ pairsNoCollision rest = true := by
      simpa [pairsNoCollision] using h
    show (normKey k, lowercaseFieldKeysRecursive v) :: lowerPairs rest
        = (normKey k, specKeyNormalize v) :: specKeyNormalizePairs rest
    rw [lower_eq_specKeyNormalize v hparts.1, lowerPairs_eq_spec rest hparts.2]

/-- Elementwise version of the agreement, over the elements of one slice. -/
theorem lowerEach_eq_spec :
    ∀ xs : List Yaml, eachNoCollision xs = true → lowerEach xs = specKeyNormalizeEach xs
  | [], _ => rfl
  | v :: rest, h => by
    have hparts : noCollision v = true ∧ eachNoCollision rest = true := by
      simpa [eachNoCollision] using h
    show lowercaseFieldKeysRecursive v :: lowerEach rest
        = specKeyNormalize v :: specKeyNormalizeEach rest
    rw [lower_eq_specKeyNormalize v hparts.1, lowerEach_eq_spec rest hparts.2]

end

/-- C6 counterexample: the rebuilt Go map collapses two keys that both
normalize to the known key name, so the output of key normalization on the
map with keys Name and NAME holds a single entry and differs from the input
by more than the casing of the six known keys. -/
theorem key_normalization_collision_drops_entry :
    lowercaseFieldKeysRecursive (.map [("Name", .str "a"), ("NAME", .str "b")])
      = .map [("name", .str "b")] ∧
    (Yaml.map [("name", Yaml.str "b")])
      ≠ .map [("Name", .str "a"), ("NAME", .str "b")] := by
  refine ⟨rfl, ?_⟩
  intro hEq
  injection hEq with h1
  injection h1 with h2 h3
  injection h2 with h4 h5
  exact absurd h4 (by decide)

/-- C6 as amended: on every input whose maps never contain two distinct keys
normalizing to the same string, key normalization rewrites exactly the known
field-attribute keys (matched case-insensitively) to lowercase and leaves
every other key, every value and all orderings unchanged — the output is the
pure specified rename of the input; when two keys of one map do collide
after normalization, the Go map rebuild keeps only the last-inserted entry
and the property fails. -/
theorem key_normalization_only_recases_known_keys (y : Yaml)
    (h : noCollision y = true) :
    lowercaseFieldKeysRecursive y = specKeyNormalize y :=
  lower_eq_specKeyNormalize y h

/-- C6 witness: concrete instantiation on a nested map mixing known keys in
assorted casings with a struct-name key that must keep its casing. -/
theorem key_normalization_only_recases_known_keys_witness :
    noCollision (.map [("FileHeader", .map [("NAME", .str "Signature"),
        ("Type", .str "string"), ("LENGTH", .num 2)])]) = true ∧
    lowercaseFieldKeysRecursive (.map [("FileHeader", .map [("NAME", .str "Signature"),
        ("Type", .str "string"), ("LENGTH", .num 2)])])
      = specKeyNormalize (.map [("FileHeader", .map [("NAME", .str "Signature"),
        ("Type", .str "string"), ("LENGTH", .num 2)])]) :=
  ⟨rfl, key_normalization_only_recases_known_keys
    (.map [("FileHeader", .map [("NAME", .str "Signature"),
      ("Type", .str "string"), ("LENGTH", .num 2)])]) rfl⟩

end FormatModules
